import Mathlib

/-!
Shallow embedding of the `dt-fetcher` repository (crates `dt-fetcher` and
`dt-api`) for checking its natural-language specification.

Modelling conventions, used throughout:
* Rust `String` values are represented by their UTF-8 byte sequences
  (`List Nat`); `uuid::Uuid` by its 16-byte representation.
* `std::time::Duration` is represented as a total count of nanoseconds
  (`Nat`); `chrono::DateTime<Utc>` as nanoseconds since the epoch (`Int`).
  `Duration::saturating_sub` is then `Nat` truncated subtraction.
* Effectful upstream calls (`dt_api::Api::{get_summary, get_store,
  get_master_data, refresh_auth}`) and the summary-refresh handler are
  passed in as explicit oracle values of type `Except Unit _`.
* The manager is modelled as run against the `InMemoryAuthStorage`
  backend, whose operations never fail; storage is an association list
  with replace-on-insert semantics, matching `im::HashMap`.
* Rust's `BinaryHeap` is modelled as a list together with `heapPopMax`,
  which pops a maximal element under the element type's `Ord` instance,
  exactly the observable contract of `BinaryHeap::{peek, pop}`.
-/

namespace DtFetcher

/-! ### Definitions: the embedded data model and operations -/

/-- UTF-8 byte strings standing for Rust `String` values. -/
abbrev Bytes := List Nat

/-- `dt_api::models::AccountId`: a transparent wrapper around `uuid::Uuid`,
represented by the uuid's 16 bytes (`Uuid::as_bytes`). -/
structure AccountId where
  bytes : Bytes
deriving DecidableEq, Repr

/-- `dt_api::models::CharacterId`: opaque identifier with equality. -/
structure CharacterId where
  bytes : Bytes
deriving DecidableEq, Repr

/-- `from dt-api/src/lib.rs`: the `Auth` struct (the credential).
`expires_in : Duration` is total nanoseconds; `refresh_at` is an optional
instant in nanoseconds since epoch. Field order matches the Rust
declaration order (which postcard serialization follows). -/
structure Auth where
  access_token : Bytes
  account_name : Bytes
  expires_in : Nat
  refresh_at : Option Int
  refresh_token : Bytes
  sub : AccountId
deriving DecidableEq, Repr

/-- `REFRESH_BUFFER = Duration::from_secs(300)` from
`dt-fetcher/src/auth/manager.rs`, in nanoseconds. -/
def REFRESH_BUFFER : Nat := 300 * 1000000000

/-- `Auth::expired` from `dt-api/src/lib.rs`:
`refresh_at.map(|t| t <= now + buffer).unwrap_or(true)`. -/
def Auth.expired (a : Auth) (buffer : Nat) (now : Int) : Bool :=
  match a.refresh_at with
  | none => true
  | some t => t ≤ now + (buffer : Int)

/-- `RefreshAuth` from `dt-fetcher/src/auth/manager.rs`: heap element
pairing an account id with its refresh deadline. -/
structure RefreshAuth where
  id : AccountId
  refresh_at : Int
deriving DecidableEq, Repr

/-- `RefreshAuth::new` from `dt-fetcher/src/auth/manager.rs`:
`refresh_at = auth.refresh_at.unwrap_or(now + auth.expires_in.saturating_sub(REFRESH_BUFFER))`.
The saturating subtraction is `Nat` subtraction on durations. -/
def RefreshAuth.new (now : Int) (auth : Auth) : RefreshAuth :=
  { id := auth.sub
    refresh_at := auth.refresh_at.getD (now + ((auth.expires_in - REFRESH_BUFFER : Nat) : Int)) }

/-- `impl Ord for RefreshAuth` from `dt-fetcher/src/auth/manager.rs`:
`fn cmp(&self, other) { other.refresh_at.cmp(&self.refresh_at) }` —
the comparison is reversed so that Rust's max-heap pops the minimum
deadline. -/
def RefreshAuth.cmp (a b : RefreshAuth) : Ordering :=
  compare b.refresh_at a.refresh_at

/-- The manager's `BinaryHeap<RefreshAuth>` as a list (multiset of
entries). -/
abbrev Heap := List RefreshAuth

/-- `BinaryHeap::pop` observable behaviour: return a maximal element under
`RefreshAuth.cmp` together with the remaining elements, or `none` when
empty. -/
def heapPopMax : Heap → Option (RefreshAuth × Heap)
  | [] => none
  | x :: xs =>
    match heapPopMax xs with
    | none => some (x, [])
    | some (m, rest) =>
      if RefreshAuth.cmp x m = Ordering.lt then some (m, x :: rest) else some (x, xs)

/-- Ids of the heap entries. -/
def Heap.ids (h : Heap) : List AccountId := h.map (·.id)

/-- `InMemoryAuthStorage` (`dt-fetcher/src/auth/storage.rs`): an
association list from `AccountId` to `Auth`; `im::HashMap` semantics. -/
abbrev Storage := List (AccountId × Auth)

/-- `AuthStorage::get` for the in-memory backend (never fails). -/
def Storage.get (s : Storage) (id : AccountId) : Option Auth :=
  (s.find? (fun p => p.1 = id)).map (·.2)

/-- `AuthStorage::contains` for the in-memory backend. -/
def Storage.containsKey (s : Storage) (id : AccountId) : Bool :=
  (Storage.get s id).isSome

/-- `AuthStorage::insert` for the in-memory backend: replace-on-insert. -/
def Storage.insert (s : Storage) (id : AccountId) (a : Auth) : Storage :=
  (id, a) :: s.filter (fun p => ¬ p.1 = id)

/-- `AuthStorage::remove` for the in-memory backend. -/
def Storage.remove (s : Storage) (id : AccountId) : Storage :=
  s.filter (fun p => ¬ p.1 = id)

/-- Keys of the storage. -/
def Storage.keys (s : Storage) : List AccountId := s.map (·.1)

/-- `dt_api::models::CurrencyType`. -/
inductive CurrencyType where
  | marks
  | credits
deriving DecidableEq, Repr

/-- `dt_api::models::Character`: only the fields the core inspects (`id`,
`archetype`); the remaining opaque fields are collapsed into `rest`. -/
structure Character where
  id : CharacterId
  archetype : Bytes
  rest : Nat
deriving DecidableEq, Repr

/-- `dt_api::models::Summary`: the `characters` list plus opaque rest. -/
structure Summary where
  characters : List Character
  rest : Nat
deriving DecidableEq, Repr

/-- `dt_api::models::Store`: the only semantically inspected field is
`current_rotation_end` (an instant); the opaque remainder is `rest`. -/
structure Store where
  current_rotation_end : Int
  rest : Nat
deriving DecidableEq, Repr

/-- `dt_api::models::MasterData`: entirely opaque to the core. -/
structure MasterData where
  rest : Nat
deriving DecidableEq, Repr

/-- `AccountData` from `dt-fetcher/src/account.rs`: the per-account cached
bundle. The two store maps (`HashMap<CharacterId, Store>`) are
association lists. -/
structure AccountData where
  last_updated : Int
  summary : Summary
  marks_store : List (CharacterId × Store)
  credits_store : List (CharacterId × Store)
  master_data : MasterData
deriving DecidableEq, Repr

/-- Lookup in a `HashMap<CharacterId, Store>`. -/
def lookupStore (m : List (CharacterId × Store)) (cid : CharacterId) : Option Store :=
  (m.find? (fun p => p.1 = cid)).map (·.2)

/-- The currency-specific store map selected by `refresh_store`/`store`
(`dt-fetcher/src/server/store.rs`). -/
def currencyStore (ad : AccountData) : CurrencyType → List (CharacterId × Store)
  | CurrencyType.marks => ad.marks_store
  | CurrencyType.credits => ad.credits_store

/-- `summary.characters.iter().find(|c| c.id == character_id)` from
`refresh_store`. -/
def findCharacter (s : Summary) (cid : CharacterId) : Option Character :=
  s.characters.find? (fun c => c.id = cid)

/-- Oracle for the effectful calls made by `refresh_store`:
the `refresh_summary` handler (on success the bundle's summary lock holds
the returned refreshed summary), the `auth_data.get` storage read, and the
upstream `api.get_store` call. -/
structure StoreWorld where
  refreshSummary : Except Unit Summary
  authGet : Except Unit (Option Auth)
  getStore : Except Unit Store
deriving Repr

/-- The auth-lookup and upstream-fetch tail of `refresh_store`
(`dt-fetcher/src/server/store.rs` lines 59-99), reached once a character
has been located: `auth_data.get` error maps to 500, absent auth to 404,
a failed `api.get_store` to 500, success to 200 with the fetched store
(which is also written into the currency-specific map). -/
def fetchStorePath (w : StoreWorld) : Except Nat Store × Bool :=
  match w.authGet with
  | Except.error _ => (Except.error 500, false)
  | Except.ok none => (Except.error 404, false)
  | Except.ok (some _) =>
    match w.getStore with
    | Except.error _ => (Except.error 500, true)
    | Except.ok s => (Except.ok s, true)

/-- `refresh_store` from `dt-fetcher/src/server/store.rs`. Returns the
HTTP outcome (`Except status store`, where `.ok` is a 200 with body) and a
flag recording whether the upstream `get_store` operation was invoked. -/
def refresh_store (accounts : AccountId → Option AccountData) (id : AccountId)
    (cid : CharacterId) (w : StoreWorld) : Except Nat Store × Bool :=
  match accounts id with
  | none => (Except.error 404, false)
  | some ad =>
    match findCharacter ad.summary cid with
    | some _ => fetchStorePath w
    | none =>
      match w.refreshSummary with
      | Except.error _ => (Except.error 404, false)
      | Except.ok s2 =>
        match findCharacter s2 cid with
        | some _ => fetchStorePath w
        | none => (Except.error 404, false)

/-- The `store` handler from `dt-fetcher/src/server/store.rs`: if a cached
entry for the character exists and `store.current_rotation_end <= now` it
refreshes, otherwise it returns the cached store; on a cache miss it
refreshes. -/
def store (accounts : AccountId → Option AccountData) (id : AccountId)
    (cid : CharacterId) (ct : CurrencyType) (now : Int) (w : StoreWorld) :
    Except Nat Store × Bool :=
  match accounts id with
  | none => (Except.error 404, false)
  | some ad =>
    match lookupStore (currencyStore ad ct) cid with
    | some s =>
      if s.current_rotation_end ≤ now then refresh_store accounts id cid w
      else (Except.ok s, false)
    | none => refresh_store accounts id cid w

/-- `put_auth`: given the result of `state.contains(&id)` and of
`state.add_auth(auth)` (the channel send), return the HTTP status code and
whether a `NewAuth` command was enqueued. -/
def put_auth (contains : Except Unit Bool) (send : Except Unit Unit) : Nat × Bool :=
  match contains with
  | Except.ok true => (200, false)
  | Except.error _ => (500, false)
  | Except.ok false =>
    match send with
    | Except.error _ => (500, false)
    | Except.ok _ => (201, true)

/-- `get_auth`: given the result of `state.contains(&id)`, the HTTP
status. -/
def get_auth (contains : Except Unit Bool) : Nat :=
  match contains with
  | Except.ok true => 200
  | Except.error _ => 500
  | Except.ok false => 404

/-- The state owned by the manager loop: the refresh heap and the auth
storage (the `accounts` cache is abstracted into the populate oracle). -/
structure MgrState where
  heap : Heap
  storage : Storage
deriving DecidableEq, Repr

/-- `AuthManager::refresh_auth` (`manager.rs` lines 203-228), run when a
deadline fires. `refreshResult` is the oracle for `api.refresh_auth`.
Run against the in-memory backend, whose storage operations never fail:
pop the top entry; if its account is absent from storage, drop the entry
and remove the key (orphan cleanup); otherwise call upstream refresh — on
failure the error propagates (the caller logs it) with the entry already
popped and the storage untouched; on success the new credential gets
`refresh_at = RefreshAuth::new(..)`, is inserted under the new
credential's `sub`, and the new entry is pushed. -/
def refresh_auth (now : Int) (refreshResult : Auth → Except Unit Auth)
    (st : MgrState) : MgrState × Except Unit Unit :=
  match heapPopMax st.heap with
  | none => (st, Except.ok ())
  | some (e, rest) =>
    match Storage.get st.storage e.id with
    | none => ({ heap := rest, storage := Storage.remove st.storage e.id }, Except.ok ())
    | some auth =>
      match refreshResult auth with
      | Except.error _ => ({ heap := rest, storage := st.storage }, Except.error ())
      | Except.ok newAuth =>
        let ra := RefreshAuth.new now newAuth
        let stored := { newAuth with refresh_at := some ra.refresh_at }
        ({ heap := ra :: rest, storage := Storage.insert st.storage ra.id stored },
          Except.ok ())

/-- `AuthManager::insert_new_auth` (`manager.rs` lines 95-114): if the sub
is already present, log and `bail!` (an error); otherwise push the refresh
entry, then populate (`AccountData::fetch` + cache insert, abstracted into
the `populate` oracle) — on populate failure the error propagates and the
credential is not inserted; on success insert the credential into
storage. -/
def insert_new_auth (now : Int) (populate : Except Unit Unit) (st : MgrState)
    (auth : Auth) : MgrState × Except Unit Unit :=
  if Storage.containsKey st.storage auth.sub then (st, Except.error ())
  else
    let st1 : MgrState := { st with heap := RefreshAuth.new now auth :: st.heap }
    match populate with
    | Except.error _ => (st1, Except.error ())
    | Except.ok _ =>
      ({ st1 with storage := Storage.insert st1.storage auth.sub auth }, Except.ok ())

/-- One firing of the manager's `select` loop (`manager.rs` lines
157-200), restricted to the two event sources the claims are about
(commands and deadlines; channel-close and cancellation only end the
loop). -/
inductive LoopEvent where
  | newAuth (auth : Auth) (populate : Except Unit Unit)
  | deadline (refreshResult : Auth → Except Unit Auth)

/-- Outcome of one loop iteration: either the loop continues with the new
state, or `start` returns (with an error) in that state. -/
inductive LoopOutcome where
  | continues (st : MgrState)
  | exits (st : MgrState)
deriving DecidableEq, Repr

/-- One iteration of `AuthManager::start`'s main loop: a `NewAuth` command
is handled by `insert_new_auth` and its error is propagated with `?`
(ending the loop); a fired deadline is handled by `refresh_auth` and its
error is only logged (`if let Err(e) = ... error!(...)`), the loop
continues. -/
def loopStep (now : Int) (st : MgrState) : LoopEvent → LoopOutcome
  | LoopEvent.newAuth a pop =>
    match insert_new_auth now pop st a with
    | (st1, Except.ok _) => LoopOutcome.continues st1
    | (st1, Except.error _) => LoopOutcome.exits st1
  | LoopEvent.deadline r => LoopOutcome.continues (refresh_auth now r st).1

/-- One item yielded by `auths.iter()` during startup, together with the
outcome of the populate call the manager would make for it: `fail` is an
`Err(e)` from the iterator (logged, skipped). -/
inductive StartItem where
  | fail
  | item (auth : Auth) (populate : Except Unit Unit)

/-- The startup phase of `AuthManager::start` (`manager.rs` lines
138-155): for each stored credential, remove it if expired within
`REFRESH_BUFFER`, else push its refresh entry and populate; a populate
failure propagates with `?` and `start` returns early with an error. -/
def startup (now : Int) :
    List StartItem → MgrState → MgrState × Except Unit Unit
  | [], st => (st, Except.ok ())
  | StartItem.fail :: rest, st => startup now rest st
  | StartItem.item auth pop :: rest, st =>
    if Auth.expired auth REFRESH_BUFFER now then
      startup now rest { st with storage := Storage.remove st.storage auth.sub }
    else
      let st1 : MgrState := { st with heap := RefreshAuth.new now auth :: st.heap }
      match pop with
      | Except.error _ => (st1, Except.error ())
      | Except.ok _ => startup now rest st1

/-- In every storage state the manager produces, each pair's key equals
its credential's `sub` (both write paths insert under the credential's
own `sub`). -/
def KeysAreSubs (s : Storage) : Prop := ∀ p ∈ s, p.1 = p.2.sub

/-- The invariant maintained by the manager loop: the heap holds at most
one entry per `AccountId` (its id list is duplicate-free), every heap
entry's account is present in storage, and storage keys equal their
credentials' subs. -/
def StInv (st : MgrState) : Prop :=
  (Heap.ids st.heap).Nodup ∧
  (∀ e ∈ st.heap, e.id ∈ Storage.keys st.storage) ∧
  KeysAreSubs st.storage

/-- The subs of the credentials yielded by the startup iteration. -/
def itemSubs : List StartItem → List AccountId
  | [] => []
  | StartItem.fail :: rest => itemSubs rest
  | StartItem.item a _ :: rest => a.sub :: itemSubs rest

/-- A concrete credential with a set `refresh_at`, stored under its sub. -/
def authX : Auth := ⟨[97], [98], 3600000000000, some 100, [99], ⟨[1]⟩⟩

/-- A concrete refreshed credential (`refresh_at` unset) with the same
sub as `authX`. -/
def authY : Auth := ⟨[100], [101], 3600000000000, none, [102], ⟨[1]⟩⟩

/-- A manager state holding `authX` in storage with its heap entry. -/
def stX : MgrState := { heap := [⟨⟨[1]⟩, 100⟩], storage := [(⟨[1]⟩, authX)] }

/-- The deadline formula exactly as the claim words it
(`now + expires_in - 300 s`, exact integer arithmetic), for comparison
with the code's `RefreshAuth::new`. -/
def claimedRefreshAt (now : Int) (a : Auth) : Int :=
  a.refresh_at.getD (now + (a.expires_in : Int) - (REFRESH_BUFFER : Int))

/-- A character present in the refreshed summary but not the cached one. -/
def charW : Character := ⟨⟨[2]⟩, [109], 0⟩

/-- A refreshed summary containing `charW`. -/
def sumW : Summary := ⟨[charW], 0⟩

/-- A bundle whose cached summary has no characters. -/
def adW : AccountData := ⟨0, ⟨[], 0⟩, [], [], ⟨0⟩⟩

/-- Oracle for the upstream calls made by `AccountData::fetch`. -/
structure FetchWorld where
  getSummary : Except Unit Summary
  getStore : CurrencyType → Character → Except Unit Store
  getMasterData : Except Unit MasterData

/-- The per-character store results, in character order (the
`FuturesOrdered` collections in `fetch`). -/
def storeResults (w : FetchWorld) (ct : CurrencyType)
    (chars : List Character) : List (Except Unit Store) :=
  chars.map (w.getStore ct)

/-- `summary.characters.iter().zip(results).filter_map(...)` from
`AccountData::fetch`: keep `(c.id, store)` for the successes, drop (and
log) the failures. -/
def collectStores (chars : List Character)
    (results : List (Except Unit Store)) : List (CharacterId × Store) :=
  (chars.zip results).filterMap (fun p =>
    match p.2 with
    | Except.ok s => some (p.1.id, s)
    | Except.error _ => none)

/-- `AccountData::fetch` from `dt-fetcher/src/account.rs`: the summary
fetch and the master-data fetch propagate errors with `?`; each
per-character store fetch failure is logged and the character omitted
from the resulting map. -/
def AccountData.fetch (now : Int) (w : FetchWorld) : Except Unit AccountData :=
  match w.getSummary with
  | Except.error e => Except.error e
  | Except.ok summary =>
    let marks := collectStores summary.characters
      (storeResults w CurrencyType.marks summary.characters)
    let credits := collectStores summary.characters
      (storeResults w CurrencyType.credits summary.characters)
    match w.getMasterData with
    | Except.error e => Except.error e
    | Except.ok md => Except.ok ⟨now, summary, marks, credits, md⟩

/-- A second character, used in the C10 witness world. -/
def charW2 : Character := ⟨⟨[3]⟩, [110], 0⟩

/-- A summary with two characters. -/
def sumW2 : Summary := ⟨[charW, charW2], 0⟩

/-- A fetch world where only `charW`'s store fetches succeed. -/
def fetchW : FetchWorld :=
  ⟨Except.ok sumW2,
    fun _ c => if c.id = ⟨[2]⟩ then Except.ok ⟨50, 7⟩ else Except.error (),
    Except.ok ⟨9⟩⟩

/-- The bundle `AccountData::fetch` produces in the `fetchW` world. -/
def fetchedW : AccountData :=
  ⟨0, sumW2, [(⟨[2]⟩, ⟨50, 7⟩)], [(⟨[2]⟩, ⟨50, 7⟩)], ⟨9⟩⟩

/-- One byte of postcard's LEB128 varint, with fuel (a `u64` varint is at
most 10 bytes). -/
def varintAux : Nat → Nat → List Nat
  | 0, _ => []
  | fuel + 1, n =>
    if n < 128 then [n] else (n % 128 + 128) :: varintAux fuel (n / 128)

/-- postcard varint encoding of a `u64` value: little-endian base 128
with a continuation bit. -/
def varint (n : Nat) : List Nat := varintAux 10 n

/-- postcard varint decoding. -/
def varintDec : List Nat → Option (Nat × List Nat)
  | [] => none
  | b :: rest =>
    if b < 128 then some (b, rest)
    else
      match varintDec rest with
      | none => none
      | some (v, r) => some (b - 128 + 128 * v, r)

/-- postcard encoding of a length-prefixed byte sequence (used for
`String` fields and for the uuid via `serialize_bytes`). -/
def encBytes (s : Bytes) : List Nat := varint s.length ++ s

/-- postcard decoding of a length-prefixed byte sequence. -/
def decBytes (l : List Nat) : Option (Bytes × List Nat) :=
  match varintDec l with
  | none => none
  | some (len, r) =>
    if len ≤ r.length then some (r.take len, r.drop len) else none

/-- postcard zigzag encoding of an `i64`. -/
def zigzag (z : Int) : Nat :=
  if 0 ≤ z then 2 * z.toNat else 2 * (-z).toNat - 1

/-- postcard zigzag decoding of an `i64`. -/
def zigzagDec (n : Nat) : Int :=
  if n % 2 = 0 then ((n / 2 : Nat) : Int) else -(((n / 2 : Nat) : Int) + 1)

/-- serde_with `DurationSeconds<u64>` serialization: the duration (total
nanoseconds) as whole seconds, rounded to nearest. -/
def durationSerSecs (nanos : Nat) : Nat := (nanos + 500000000) / 1000000000

/-- serde_with `DurationSeconds<u64>` deserialization: whole seconds back
to a duration in nanoseconds. -/
def durationDeNanos (secs : Nat) : Nat := secs * 1000000000

/-- chrono `timestamp_millis` (used by `TimestampMilliSeconds<i64>`):
floor division of the nanosecond instant. -/
def timestampMillis (nanos : Int) : Int := Int.fdiv nanos 1000000

/-- `TimestampMilliSeconds<i64>` deserialization back to a nanosecond
instant. -/
def timestampFromMillis (ms : Int) : Int := ms * 1000000

/-- The postcard encoding of `Auth` as written by
`SledDbAuthStorage::insert` (`postcard::to_vec::<Auth, 1024>`): the six
fields in declaration order; strings as varint-length-prefixed bytes;
`expires_in` as a varint of whole seconds; `refresh_at` is an `Option`,
and `#[skip_serializing_none]` on `Auth` means a `None` value writes
NOTHING (the field is skipped), while `Some t` writes tag byte 1 followed
by the varint of the zigzagged millisecond timestamp; `sub` as the uuid's
16 bytes via `serialize_bytes`. -/
def encAuth (a : Auth) : List Nat :=
  encBytes a.access_token ++ encBytes a.account_name ++
  varint (durationSerSecs a.expires_in) ++
  (match a.refresh_at with
   | none => []
   | some t => 1 :: varint (zigzag (timestampMillis t))) ++
  encBytes a.refresh_token ++ encBytes a.sub.bytes

/-- The postcard decoding of `Auth` as performed by
`SledDbAuthStorage::get` (`postcard::from_bytes::<Auth>`): reads the six
fields in declaration order; the `Option` field reads one tag byte (0 →
`None`, 1 → `Some` + value, anything else is a decode error); the uuid
must be exactly 16 bytes. -/
def decAuth (l : List Nat) : Option Auth :=
  match decBytes l with
  | none => none
  | some (tok, r1) =>
    match decBytes r1 with
    | none => none
    | some (an, r2) =>
      match varintDec r2 with
      | none => none
      | some (secs, r3) =>
        match r3 with
        | [] => none
        | tag :: r4 =>
          match
            (if tag = 0 then some (Option.none (α := Int), r4)
             else if tag = 1 then
               match varintDec r4 with
               | none => none
               | some (z, r5) => some (some (timestampFromMillis (zigzagDec z)), r5)
             else none) with
          | none => none
          | some (raf, r5) =>
            match decBytes r5 with
            | none => none
            | some (rt, r6) =>
              match decBytes r6 with
              | none => none
              | some (sb, _) =>
                if sb.length = 16 then
                  some ⟨tok, an, durationDeNanos secs, raf, rt, ⟨sb⟩⟩
                else none

/-- `SledDbAuthStorage` modelled as a map from raw key bytes to raw value
bytes: `insert` stores `encAuth auth` under the uuid's 16 key bytes
(`id.0.as_bytes()`); `get` looks the key up and decodes, a decode failure
propagating as an error (`context` on `postcard::from_bytes`). -/
def sledInsert (db : List (Bytes × Bytes)) (id : AccountId) (a : Auth) :
    List (Bytes × Bytes) :=
  (id.bytes, encAuth a) :: db.filter (fun p => ¬ p.1 = id.bytes)

/-- `SledDbAuthStorage::get` over the byte-map model. -/
def sledGet (db : List (Bytes × Bytes)) (id : AccountId) :
    Except Unit (Option Auth) :=
  match db.find? (fun p => p.1 = id.bytes) with
  | none => Except.ok none
  | some p =>
    match decAuth p.2 with
    | none => Except.error ()
    | some a => Except.ok (some a)

/-- A credential with `refresh_at = None` (exactly what a fresh
`PUT /auth` body without `RefreshAt` produces), stored by the durable
backend. -/
def authN : Auth :=
  ⟨[97, 116], [97, 110], 3600000000000, none, [114, 116],
    ⟨[0, 0, 0, 0, 0, 0, 0, 0, 0, 0, 0, 0, 0, 0, 0, 0]⟩⟩

/-! ### Theorems -/

theorem heapPopMax_none_iff (h : Heap) : heapPopMax h = none ↔ h = [] := by
  cases h with
  | nil => simp [heapPopMax]
  | cons x xs =>
    simp only [heapPopMax]
    cases hx : heapPopMax xs with
    | none => simp
    | some p =>
      cases p with
      | mk m rest =>
        by_cases hc : RefreshAuth.cmp x m = Ordering.lt <;> simp [hc]

theorem heapPopMax_perm {h : Heap} {e : RefreshAuth} {r : Heap}
    (hp : heapPopMax h = some (e, r)) : List.Perm (e :: r) h := by
  induction h generalizing e r with
  | nil => simp [heapPopMax] at hp
  | cons x xs ih =>
    simp only [heapPopMax] at hp
    cases hx : heapPopMax xs with
    | none =>
      rw [hx] at hp
      have hxs : xs = [] := (heapPopMax_none_iff xs).mp hx
      simp at hp
      subst hxs
      simp [hp.1, hp.2]
    | some p =>
      cases p with
      | mk m rest =>
        rw [hx] at hp
        dsimp only at hp
        by_cases hc : RefreshAuth.cmp x m = Ordering.lt
        · rw [if_pos hc] at hp
          have h1 : m = e ∧ (x :: rest : Heap) = r := by simpa using hp
          obtain ⟨rfl, rfl⟩ := h1
          exact (List.Perm.swap x m rest).trans (List.Perm.cons x (ih hx))
        · rw [if_neg hc] at hp
          have h1 : x = e ∧ xs = r := by simpa using hp
          obtain ⟨rfl, rfl⟩ := h1
          exact List.Perm.refl _

theorem cmp_lt_iff (a b : RefreshAuth) :
    RefreshAuth.cmp a b = Ordering.lt ↔ b.refresh_at < a.refresh_at := by
  unfold RefreshAuth.cmp
  exact compare_lt_iff_lt

theorem heapPopMax_min {h : Heap} {e : RefreshAuth} {r : Heap}
    (hp : heapPopMax h = some (e, r)) :
    ∀ x ∈ h, e.refresh_at ≤ x.refresh_at := by
  induction h generalizing e r with
  | nil => simp [heapPopMax] at hp
  | cons x xs ih =>
    simp only [heapPopMax] at hp
    cases hx : heapPopMax xs with
    | none =>
      rw [hx] at hp
      have hxs : xs = [] := (heapPopMax_none_iff xs).mp hx
      simp at hp
      subst hxs
      intro y hy
      simp at hy
      simp [hy, hp.1]
    | some p =>
      cases p with
      | mk m rest =>
        rw [hx] at hp
        dsimp only at hp
        have hmle : ∀ y ∈ xs, m.refresh_at ≤ y.refresh_at := ih hx
        by_cases hc : RefreshAuth.cmp x m = Ordering.lt
        · rw [if_pos hc] at hp
          have h1 : m = e ∧ (x :: rest : Heap) = r := by simpa using hp
          obtain ⟨rfl, rfl⟩ := h1
          intro y hy
          rcases List.mem_cons.mp hy with hy | hy
          · rw [hy]
            exact le_of_lt ((cmp_lt_iff x m).mp hc)
          · exact hmle y hy
        · rw [if_neg hc] at hp
          have h1 : x = e ∧ xs = r := by simpa using hp
          obtain ⟨rfl, rfl⟩ := h1
          have hnlt : ¬ m.refresh_at < x.refresh_at := fun hlt =>
            hc ((cmp_lt_iff x m).mpr hlt)
          intro y hy
          rcases List.mem_cons.mp hy with hy | hy
          · subst hy; exact le_refl _
          · exact le_trans (le_of_not_lt hnlt) (hmle y hy)

/-- C4: the refresh heap orders entries earliest `refresh_at` first: for
any two `RefreshAuth` values, the one with the smaller `refresh_at` is
the greater in the heap's ordering (the `Ord` impl reverses the
comparison, so the max-heap pops the minimum deadline), and a `pop` of the
heap yields the entry with the minimum `refresh_at` among those present
(which is also the entry `peek` makes the manager sleep on). -/
theorem heap_orders_earliest_first :
    (∀ a b : RefreshAuth, a.refresh_at < b.refresh_at →
      RefreshAuth.cmp a b = Ordering.gt) ∧
    (∀ (h : Heap) (e : RefreshAuth) (r : Heap), heapPopMax h = some (e, r) →
      ∀ x ∈ h, e.refresh_at ≤ x.refresh_at) := by
  constructor
  · intro a b hab
    unfold RefreshAuth.cmp
    exact compare_gt_iff_gt.mpr hab
  · intro h e r hp
    exact heapPopMax_min hp

/-- Witness for C4 at concrete inputs. -/
theorem heap_orders_earliest_first_witness :
    RefreshAuth.cmp ⟨⟨[0]⟩, 3⟩ ⟨⟨[0]⟩, 7⟩ = Ordering.gt ∧
    ∀ x ∈ ([⟨⟨[0]⟩, 7⟩, ⟨⟨[1]⟩, 3⟩] : Heap), (3 : Int) ≤ x.refresh_at := by
  constructor
  · exact heap_orders_earliest_first.1 ⟨⟨[0]⟩, 3⟩ ⟨⟨[0]⟩, 7⟩ (by decide)
  · exact heap_orders_earliest_first.2 [⟨⟨[0]⟩, 7⟩, ⟨⟨[1]⟩, 3⟩] ⟨⟨[1]⟩, 3⟩ [⟨⟨[0]⟩, 7⟩] (by decide)

/-- The four possible outcomes of `fetchStorePath`. -/
theorem fetchStorePath_cases (w : StoreWorld) :
    fetchStorePath w = (Except.error 500, false) ∨
    fetchStorePath w = (Except.error 404, false) ∨
    fetchStorePath w = (Except.error 500, true) ∨
    ∃ s, fetchStorePath w = (Except.ok s, true) := by
  unfold fetchStorePath
  cases w.authGet with
  | error e => left; rfl
  | ok oa =>
    cases oa with
    | none => right; left; rfl
    | some a =>
      cases w.getStore with
      | error e => right; right; left; rfl
      | ok s => right; right; right; exact ⟨s, rfl⟩

/-- `refresh_store` never returns a store body without having called the
upstream `get_store` operation: every `.ok` outcome has the call flag set. -/
theorem refresh_store_ok_called (accounts : AccountId → Option AccountData)
    (id : AccountId) (cid : CharacterId) (w : StoreWorld) (s : Store) :
    refresh_store accounts id cid w ≠ (Except.ok s, false) := by
  have hfetch : fetchStorePath w ≠ (Except.ok s, false) := by
    rcases fetchStorePath_cases w with h | h | h | ⟨s', h⟩ <;> rw [h] <;> simp
  unfold refresh_store
  split
  · simp
  · split
    · exact hfetch
    · split
      · simp
      · split
        · exact hfetch
        · simp

/-- C7: with a cached entry for the requested character and currency, the
cached store is returned (with no refresh and no upstream call) if and
only if its `current_rotation_end` is strictly greater than `now`; when
`current_rotation_end = now` the handler takes the refresh path instead of
serving from cache. -/
theorem store_cache_strict_validity
    (accounts : AccountId → Option AccountData) (id : AccountId)
    (cid : CharacterId) (ct : CurrencyType) (now : Int) (w : StoreWorld)
    (ad : AccountData) (s : Store)
    (had : accounts id = some ad)
    (hs : lookupStore (currencyStore ad ct) cid = some s) :
    (store accounts id cid ct now w = (Except.ok s, false) ↔
      now < s.current_rotation_end) ∧
    (s.current_rotation_end = now →
      store accounts id cid ct now w = refresh_store accounts id cid w) := by
  have hstore : store accounts id cid ct now w =
      (if s.current_rotation_end ≤ now then refresh_store accounts id cid w
       else (Except.ok s, false)) := by
    simp only [store, had, hs]
  constructor
  · constructor
    · intro heq
      by_contra hlt
      have hle : s.current_rotation_end ≤ now := not_lt.mp hlt
      rw [hstore, if_pos hle] at heq
      exact refresh_store_ok_called accounts id cid w s heq
    · intro hlt
      rw [hstore, if_neg (not_le.mpr hlt)]
  · intro heqnow
    rw [hstore, if_pos (le_of_eq heqnow)]

/-- Witness for C7 at concrete inputs. -/
theorem store_cache_strict_validity_witness :
    (store (fun _ => some ⟨0, ⟨[], 0⟩, [(⟨[2]⟩, ⟨10, 0⟩)], [], ⟨0⟩⟩) ⟨[1]⟩ ⟨[2]⟩
        CurrencyType.marks 5
        ⟨Except.error (), Except.error (), Except.error ()⟩ =
      (Except.ok ⟨10, 0⟩, false) ↔ (5 : Int) < 10) := by
  exact (store_cache_strict_validity
    (fun _ => some ⟨0, ⟨[], 0⟩, [(⟨[2]⟩, ⟨10, 0⟩)], [], ⟨0⟩⟩) ⟨[1]⟩ ⟨[2]⟩
    CurrencyType.marks 5 ⟨Except.error (), Except.error (), Except.error ()⟩
    ⟨0, ⟨[], 0⟩, [(⟨[2]⟩, ⟨10, 0⟩)], [], ⟨0⟩⟩ ⟨10, 0⟩ rfl (by rfl)).1

/-- C8: `put_auth` replies 200 and enqueues nothing when the id is already
present; enqueues a `NewAuth` command and replies 201 when it is absent
and the send succeeds; and replies 500 exactly when the `contains` check
or the channel send fails. -/
theorem put_auth_behaviour :
    (∀ s, put_auth (Except.ok true) s = (200, false)) ∧
    (put_auth (Except.ok false) (Except.ok ()) = (201, true)) ∧
    (∀ c s, (put_auth c s).1 = 500 ↔
      (c = Except.error () ∨ (c = Except.ok false ∧ s = Except.error ()))) := by
  refine ⟨fun s => rfl, rfl, fun c s => ?_⟩
  cases c with
  | error e => cases e; simp [put_auth]
  | ok b =>
    cases b with
    | true => simp [put_auth]
    | false =>
      cases s with
      | error e => cases e; simp [put_auth]
      | ok u => cases u; simp [put_auth]

theorem Storage.get_insert_self (s : Storage) (id : AccountId) (a : Auth) :
    Storage.get (Storage.insert s id a) id = some a := by
  unfold Storage.get Storage.insert
  rw [List.find?_cons_of_pos]
  · rfl
  · simp

theorem Storage.containsKey_iff (s : Storage) (id : AccountId) :
    Storage.containsKey s id = true ↔ id ∈ Storage.keys s := by
  induction s with
  | nil => simp [Storage.containsKey, Storage.get, Storage.keys]
  | cons p rest ih =>
    unfold Storage.containsKey Storage.get at ih ⊢
    by_cases hp : p.1 = id
    · rw [List.find?_cons_of_pos _ (by simpa using hp)]
      simp [Storage.keys, hp.symm]
    · rw [List.find?_cons_of_neg _ (by simpa using hp)]
      rw [ih]
      unfold Storage.keys
      simp only [List.map_cons, List.mem_cons]
      constructor
      · exact Or.inr
      · rintro (h | h)
        · exact absurd h.symm hp
        · exact h

theorem Storage.mem_keys_insert_self (s : Storage) (id : AccountId) (a : Auth) :
    id ∈ Storage.keys (Storage.insert s id a) :=
  List.mem_cons_self _ _

theorem Storage.mem_keys_insert_of_mem {s : Storage} {x : AccountId}
    (id : AccountId) (a : Auth) (h : x ∈ Storage.keys s) :
    x ∈ Storage.keys (Storage.insert s id a) := by
  by_cases hx : x = id
  · subst hx; exact Storage.mem_keys_insert_self s x a
  · unfold Storage.keys at h ⊢
    unfold Storage.insert
    rcases List.mem_map.mp h with ⟨p, hp, rfl⟩
    refine List.mem_cons_of_mem _ (List.mem_map.mpr ⟨p, ?_, rfl⟩)
    exact List.mem_filter.mpr ⟨hp, by simpa using hx⟩

theorem Storage.mem_keys_remove {s : Storage} {x : AccountId} (id : AccountId)
    (h : x ∈ Storage.keys s) (hne : x ≠ id) :
    x ∈ Storage.keys (Storage.remove s id) := by
  unfold Storage.keys at h ⊢
  unfold Storage.remove
  rcases List.mem_map.mp h with ⟨p, hp, rfl⟩
  exact List.mem_map.mpr ⟨p, List.mem_filter.mpr ⟨hp, by simpa using hne⟩, rfl⟩

theorem keysAreSubs_insert {s : Storage} (hs : KeysAreSubs s)
    (id : AccountId) (a : Auth) (hid : id = a.sub) :
    KeysAreSubs (Storage.insert s id a) := by
  intro p hp
  unfold Storage.insert at hp
  rcases List.mem_cons.mp hp with rfl | hp
  · exact hid
  · exact hs p (List.mem_filter.mp hp).1

theorem keysAreSubs_remove {s : Storage} (hs : KeysAreSubs s) (id : AccountId) :
    KeysAreSubs (Storage.remove s id) :=
  fun p hp => hs p (List.mem_filter.mp hp).1

theorem Storage.get_sub {s : Storage} {id : AccountId} {a : Auth}
    (hs : KeysAreSubs s) (h : Storage.get s id = some a) : a.sub = id := by
  unfold Storage.get at h
  cases hf : List.find? (fun p => decide (p.1 = id)) s with
  | none => rw [hf] at h; simp at h
  | some p =>
    rw [hf] at h
    simp at h
    have h1 : p.1 = id := by simpa using List.find?_some hf
    have h2 : p ∈ s := List.mem_of_find?_eq_some hf
    rw [← h, ← h1]
    exact (hs p h2).symm

theorem heapPopMax_ids_perm {h : Heap} {e : RefreshAuth} {r : Heap}
    (hp : heapPopMax h = some (e, r)) :
    List.Perm (e.id :: Heap.ids r) (Heap.ids h) :=
  List.Perm.map (fun x : RefreshAuth => x.id) (heapPopMax_perm hp)

theorem refresh_auth_inv (now : Int) (r : Auth → Except Unit Auth) (st : MgrState)
    (hsub : ∀ a b, r a = Except.ok b → b.sub = a.sub)
    (hinv : StInv st) : StInv (refresh_auth now r st).1 := by
  obtain ⟨hnd, hmem, hks⟩ := hinv
  cases hp : heapPopMax st.heap with
  | none =>
    simp only [refresh_auth, hp]
    exact ⟨hnd, hmem, hks⟩
  | some q =>
    obtain ⟨e, rest⟩ := q
    have hperm := heapPopMax_ids_perm hp
    have hnd2 : (e.id :: Heap.ids rest).Nodup := hperm.nodup_iff.mpr hnd
    have heid : e.id ∉ Heap.ids rest := (List.nodup_cons.mp hnd2).1
    have hndrest : (Heap.ids rest).Nodup := (List.nodup_cons.mp hnd2).2
    have hrestmem : ∀ x ∈ rest, x ∈ st.heap := fun x hx =>
      (heapPopMax_perm hp).mem_iff.mp (List.mem_cons_of_mem _ hx)
    cases hg : Storage.get st.storage e.id with
    | none =>
      simp only [refresh_auth, hp, hg]
      refine ⟨hndrest, fun x hx => ?_, keysAreSubs_remove hks e.id⟩
      have hxne : x.id ≠ e.id := fun hxe =>
        heid (hxe ▸ List.mem_map_of_mem (fun y : RefreshAuth => y.id) hx)
      exact Storage.mem_keys_remove e.id (hmem x (hrestmem x hx)) hxne
    | some auth =>
      cases hr : r auth with
      | error u =>
        simp only [refresh_auth, hp, hg, hr]
        exact ⟨hndrest, fun x hx => hmem x (hrestmem x hx), hks⟩
      | ok b =>
        simp only [refresh_auth, hp, hg, hr]
        have hbsub : (RefreshAuth.new now b).id = e.id := by
          show b.sub = e.id
          rw [hsub auth b hr]
          exact Storage.get_sub hks hg
        refine ⟨?_, fun x hx => ?_, ?_⟩
        · show ((RefreshAuth.new now b).id :: Heap.ids rest).Nodup
          exact List.nodup_cons.mpr ⟨hbsub ▸ heid, hndrest⟩
        · rcases List.mem_cons.mp hx with rfl | hx
          · exact Storage.mem_keys_insert_self _ _ _
          · exact Storage.mem_keys_insert_of_mem _ _ (hmem x (hrestmem x hx))
        · exact keysAreSubs_insert hks _ _ rfl

theorem insert_new_auth_inv (now : Int) (pop : Except Unit Unit) (st : MgrState)
    (a : Auth) (hinv : StInv st) :
    ((insert_new_auth now pop st a).2 = Except.ok () →
      StInv (insert_new_auth now pop st a).1) ∧
    (Heap.ids (insert_new_auth now pop st a).1.heap).Nodup := by
  obtain ⟨hnd, hmem, hks⟩ := hinv
  unfold insert_new_auth
  by_cases hc : Storage.containsKey st.storage a.sub = true
  · rw [if_pos hc]
    exact ⟨fun h => by simp at h, hnd⟩
  · rw [if_neg hc]
    have hnk : a.sub ∉ Storage.keys st.storage := fun h =>
      hc ((Storage.containsKey_iff st.storage a.sub).mpr h)
    have hni : a.sub ∉ Heap.ids st.heap := fun h => by
      rcases List.mem_map.mp h with ⟨x, hx, hxa⟩
      exact hnk (hxa ▸ hmem x hx)
    have hnd1 : (Heap.ids (RefreshAuth.new now a :: st.heap)).Nodup := by
      show ((RefreshAuth.new now a).id :: Heap.ids st.heap).Nodup
      exact List.nodup_cons.mpr ⟨hni, hnd⟩
    cases pop with
    | error u => exact ⟨fun h => by simp at h, hnd1⟩
    | ok u =>
      refine ⟨fun _ => ⟨hnd1, fun x hx => ?_, keysAreSubs_insert hks _ _ rfl⟩, hnd1⟩
      rcases List.mem_cons.mp hx with rfl | hx
      · exact Storage.mem_keys_insert_self _ _ _
      · exact Storage.mem_keys_insert_of_mem _ _ (hmem x hx)

theorem startup_inv_aux (now : Int) (items : List StartItem) (st : MgrState)
    (hndi : (itemSubs items).Nodup)
    (hdisj : ∀ s ∈ itemSubs items, s ∉ Heap.ids st.heap)
    (hmemi : ∀ s ∈ itemSubs items, s ∈ Storage.keys st.storage)
    (hinv : StInv st) :
    StInv (startup now items st).1 := by
  induction items generalizing st with
  | nil => exact hinv
  | cons it rest ih =>
    obtain ⟨hnd, hmem, hks⟩ := hinv
    cases it with
    | fail =>
      have hstep : startup now (StartItem.fail :: rest) st = startup now rest st := rfl
      rw [hstep]
      exact ih st (by simpa [itemSubs] using hndi)
        (fun s hs => hdisj s (by simpa [itemSubs] using hs))
        (fun s hs => hmemi s (by simpa [itemSubs] using hs)) ⟨hnd, hmem, hks⟩
    | item a pop =>
      have hsubs : itemSubs (StartItem.item a pop :: rest) = a.sub :: itemSubs rest := rfl
      rw [hsubs] at hndi hdisj hmemi
      have hnd' : (itemSubs rest).Nodup := (List.nodup_cons.mp hndi).2
      have hane : a.sub ∉ itemSubs rest := (List.nodup_cons.mp hndi).1
      by_cases hexp : Auth.expired a REFRESH_BUFFER now = true
      · have hstep : startup now (StartItem.item a pop :: rest) st =
            startup now rest { st with storage := Storage.remove st.storage a.sub } := by
          simp [startup, hexp]
        rw [hstep]
        refine ih _ hnd' (fun s hs => hdisj s (List.mem_cons_of_mem _ hs))
          (fun s hs => ?_) ⟨hnd, fun e he => ?_, keysAreSubs_remove hks a.sub⟩
        · exact Storage.mem_keys_remove a.sub
            (hmemi s (List.mem_cons_of_mem _ hs))
            (fun h => hane (h ▸ hs))
        · refine Storage.mem_keys_remove a.sub (hmem e he) (fun h => ?_)
          exact hdisj a.sub (List.mem_cons_self _ _)
            (h ▸ List.mem_map_of_mem (fun y : RefreshAuth => y.id) he)
      · have hnd1 : (Heap.ids (RefreshAuth.new now a :: st.heap)).Nodup := by
          show ((RefreshAuth.new now a).id :: Heap.ids st.heap).Nodup
          exact List.nodup_cons.mpr ⟨hdisj a.sub (List.mem_cons_self _ _), hnd⟩
        have hmem1 : ∀ e ∈ RefreshAuth.new now a :: st.heap,
            e.id ∈ Storage.keys st.storage := by
          intro e he
          rcases List.mem_cons.mp he with rfl | he
          · exact hmemi a.sub (List.mem_cons_self _ _)
          · exact hmem e he
        cases pop with
        | error u =>
          have hstep : startup now (StartItem.item a (Except.error u) :: rest) st =
              ({ st with heap := RefreshAuth.new now a :: st.heap }, Except.error ()) := by
            simp [startup, hexp]
          rw [hstep]
          exact ⟨hnd1, hmem1, hks⟩
        | ok u =>
          have hstep : startup now (StartItem.item a (Except.ok u) :: rest) st =
              startup now rest { st with heap := RefreshAuth.new now a :: st.heap } := by
            simp [startup, hexp]
          rw [hstep]
          refine ih _ hnd' (fun s hs => ?_)
            (fun s hs => hmemi s (List.mem_cons_of_mem _ hs)) ⟨hnd1, hmem1, hks⟩
          intro hmm
          rcases List.mem_cons.mp hmm with h | h
          · rw [h] at hs
            exact hane hs
          · exact hdisj s (List.mem_cons_of_mem _ hs) h

/-- C1 counterexample: with `authX` present and one due heap entry, an
upstream refresh failure leaves the credential in `AuthStorage`
(`contains` stays true) and a subsequent `GET /auth` returns 200, not the
404 the claim requires: the code propagates the refresh error with `?`
before ever reaching a removal. -/
theorem refresh_failure_keeps_credential_cex :
    Storage.containsKey
      (refresh_auth 100 (fun _ => Except.error ()) stX).1.storage ⟨[1]⟩ = true ∧
    get_auth (Except.ok (Storage.containsKey
      (refresh_auth 100 (fun _ => Except.error ()) stX).1.storage ⟨[1]⟩)) = 200 := by
  exact ⟨rfl, rfl⟩

/-- C1 amended: when a scheduled deadline fires for an account present in
storage and the upstream refresh call fails, the manager logs the failure
and does not re-push the entry (the heap is left with exactly the
remaining entries), but the credential REMAINS in `AuthStorage` — the
error propagates out of `refresh_auth` before any removal — and the main
loop merely logs it and continues; consequently a subsequent
`GET /auth` still reports the account present. -/
theorem refresh_failure_no_evict (now : Int) (r : Auth → Except Unit Auth)
    (st : MgrState) (e : RefreshAuth) (rest : Heap) (auth : Auth)
    (hpop : heapPopMax st.heap = some (e, rest))
    (hget : Storage.get st.storage e.id = some auth)
    (hfail : r auth = Except.error ()) :
    refresh_auth now r st = ({ heap := rest, storage := st.storage }, Except.error ()) ∧
    loopStep now st (LoopEvent.deadline r) =
      LoopOutcome.continues { heap := rest, storage := st.storage } := by
  have h1 : refresh_auth now r st =
      ({ heap := rest, storage := st.storage }, Except.error ()) := by
    simp only [refresh_auth, hpop, hget, hfail]
  refine ⟨h1, ?_⟩
  simp only [loopStep, h1]

/-- Witness for C1's amended theorem at concrete inputs. -/
theorem refresh_failure_no_evict_witness :
    refresh_auth 100 (fun _ => Except.error ()) stX =
      ({ heap := [], storage := stX.storage }, Except.error ()) :=
  (refresh_failure_no_evict 100 (fun _ => Except.error ()) stX ⟨⟨[1]⟩, 100⟩ [] authX
    rfl rfl rfl).1

/-- C2 counterexample: a `NewAuth` command for a sub already present in
`AuthStorage` makes `insert_new_auth` `bail!`, and `start` propagates that
error with `?`: the main loop exits with an error instead of continuing as
the claim requires. -/
theorem newauth_failure_fatal_cex :
    loopStep 0 stX (LoopEvent.newAuth authX (Except.ok ())) = LoopOutcome.exits stX := by
  decide

/-- C2 amended: a failure while handling a `NewAuth` command IS fatal to
the manager's main loop (`start` propagates `insert_new_auth` errors with
`?`): a duplicate sub is logged and makes the loop return an error with
the state unchanged; a populate failure makes the loop return an error
with the credential not inserted into `AuthStorage` (though its refresh
entry was already pushed); only the success path continues the loop, with
the credential inserted. -/
theorem newauth_failure_fatal (now : Int) (st : MgrState) (a : Auth)
    (pop : Except Unit Unit) :
    (Storage.containsKey st.storage a.sub = true →
      loopStep now st (LoopEvent.newAuth a pop) = LoopOutcome.exits st) ∧
    (Storage.containsKey st.storage a.sub = false → pop = Except.error () →
      loopStep now st (LoopEvent.newAuth a pop) =
        LoopOutcome.exits { st with heap := RefreshAuth.new now a :: st.heap } ∧
      (insert_new_auth now pop st a).1.storage = st.storage) ∧
    (Storage.containsKey st.storage a.sub = false → pop = Except.ok () →
      loopStep now st (LoopEvent.newAuth a pop) =
        LoopOutcome.continues ⟨RefreshAuth.new now a :: st.heap,
          Storage.insert st.storage a.sub a⟩) := by
  refine ⟨fun hc => ?_, fun hc hpop => ⟨?_, ?_⟩, fun hc hpop => ?_⟩
  · simp only [loopStep, insert_new_auth, hc, if_true]
  · simp only [loopStep, insert_new_auth, hc, hpop, Bool.false_eq_true, if_false]
  · simp only [insert_new_auth, hc, hpop, Bool.false_eq_true, if_false]
  · simp only [loopStep, insert_new_auth, hc, hpop, Bool.false_eq_true, if_false]

/-- Witness for C2's amended theorem at concrete inputs. -/
theorem newauth_failure_fatal_witness :
    loopStep 0 ⟨[], []⟩ (LoopEvent.newAuth authX (Except.ok ())) =
      LoopOutcome.continues ⟨[RefreshAuth.new 0 authX],
        Storage.insert [] authX.sub authX⟩ :=
  (newauth_failure_fatal 0 ⟨[], []⟩ authX (Except.ok ())).2.2 rfl rfl

/-- C3 counterexample: for a credential with `expires_in = 0` and no
`refresh_at`, `RefreshAuth::new` computes deadline `now` (the code uses
`expires_in.saturating_sub(REFRESH_BUFFER)`), not the claimed
`now + expires_in - 300 s = now - 300 s`. -/
theorem refresh_deadline_formula_cex :
    (RefreshAuth.new 0 ⟨[], [], 0, none, [], ⟨[]⟩⟩).refresh_at ≠
      claimedRefreshAt 0 ⟨[], [], 0, none, [], ⟨[]⟩⟩ := by
  decide

/-- C3 amended: the deadline the manager computes is
`now + expires_in.saturating_sub(300 s)` — the claimed exact formula only
holds when `expires_in ≥ 300 s`; `RefreshEntry::from` uses the
credential's `refresh_at` when set and the saturating formula otherwise;
and after a successful scheduled refresh whose upstream credential has no
`refresh_at`, the stored credential's `refresh_at` is the refresh time
plus `expires_in.saturating_sub(300 s)`. -/
theorem refresh_deadline_saturating (now : Int) (a : Auth) (st : MgrState)
    (r : Auth → Except Unit Auth) (e : RefreshAuth) (rest : Heap) (auth na : Auth)
    (hpop : heapPopMax st.heap = some (e, rest))
    (hget : Storage.get st.storage e.id = some auth)
    (hok : r auth = Except.ok na)
    (hnone : na.refresh_at = none) :
    ((RefreshAuth.new now a).refresh_at =
      a.refresh_at.getD (now + ((a.expires_in - REFRESH_BUFFER : Nat) : Int))) ∧
    (a.refresh_at = none → REFRESH_BUFFER ≤ a.expires_in →
      (RefreshAuth.new now a).refresh_at =
        now + (a.expires_in : Int) - (REFRESH_BUFFER : Int)) ∧
    Storage.get (refresh_auth now r st).1.storage na.sub =
      some { na with
        refresh_at := some (now + ((na.expires_in - REFRESH_BUFFER : Nat) : Int)) } := by
  refine ⟨rfl, fun hra hle => ?_, ?_⟩
  · simp only [RefreshAuth.new, hra, Option.getD_none]
    rw [Nat.cast_sub hle]
    ring
  · simp only [refresh_auth, hpop, hget, hok]
    have hid : (RefreshAuth.new now na).id = na.sub := rfl
    have hra2 : (RefreshAuth.new now na).refresh_at =
        now + ((na.expires_in - REFRESH_BUFFER : Nat) : Int) := by
      simp only [RefreshAuth.new, hnone, Option.getD_none]
    rw [hid, hra2]
    exact Storage.get_insert_self _ _ _

/-- Witness for C3's amended theorem at concrete inputs. -/
theorem refresh_deadline_saturating_witness :
    Storage.get (refresh_auth 100 (fun _ => Except.ok authY) stX).1.storage authY.sub =
      some { authY with
        refresh_at := some (100 + ((authY.expires_in - REFRESH_BUFFER : Nat) : Int)) } :=
  (refresh_deadline_saturating 100 authY stX (fun _ => Except.ok authY)
    ⟨⟨[1]⟩, 100⟩ [] authX authY rfl rfl rfl rfl).2.2

/-- C5: the refresh heap holds at most one entry per `AccountId`
throughout the manager's lifetime, assuming upstream refresh preserves the
credential's sub: startup from an empty heap over the storage's items
(distinct subs, each present in storage) establishes the invariant `StInv`
(whose first component is exactly duplicate-freedom of the heap's ids);
every loop iteration that continues preserves `StInv`; and even an
iteration that exits the loop leaves the heap duplicate-free. -/
theorem heap_at_most_one_entry_per_account :
    (∀ (now : Int) (items : List StartItem) (storage : Storage),
      (itemSubs items).Nodup →
      (∀ s ∈ itemSubs items, s ∈ Storage.keys storage) →
      KeysAreSubs storage →
      StInv (startup now items ⟨[], storage⟩).1) ∧
    (∀ (now : Int) (st : MgrState) (ev : LoopEvent), StInv st →
      (∀ r, ev = LoopEvent.deadline r → ∀ a b, r a = Except.ok b → b.sub = a.sub) →
      (∀ st', loopStep now st ev = LoopOutcome.continues st' → StInv st') ∧
      (∀ st', loopStep now st ev = LoopOutcome.exits st' →
        (Heap.ids st'.heap).Nodup)) := by
  constructor
  · intro now items storage hnd hmemi hks
    refine startup_inv_aux now items ⟨[], storage⟩ hnd ?_ hmemi ?_
    · intro s _ h
      simp [Heap.ids] at h
    · exact ⟨List.nodup_nil, fun e he => absurd he (List.not_mem_nil e), hks⟩
  · intro now st ev hinv hsub
    cases ev with
    | newAuth a pop =>
      have h := insert_new_auth_inv now pop st a hinv
      constructor
      · intro st' hstep
        simp only [loopStep] at hstep
        cases hi : insert_new_auth now pop st a with
        | mk st1 res =>
          rw [hi] at hstep
          cases res with
          | error u => simp at hstep
          | ok u =>
            cases u
            simp only at hstep
            cases hstep
            have := h.1 (by rw [hi])
            rwa [hi] at this
      · intro st' hstep
        simp only [loopStep] at hstep
        cases hi : insert_new_auth now pop st a with
        | mk st1 res =>
          rw [hi] at hstep
          cases res with
          | ok u => simp at hstep
          | error u =>
            simp only at hstep
            cases hstep
            have := h.2
            rwa [hi] at this
    | deadline r =>
      constructor
      · intro st' hstep
        simp only [loopStep] at hstep
        cases hstep
        exact refresh_auth_inv now r st (hsub r rfl) hinv
      · intro st' hstep
        simp only [loopStep] at hstep
        cases hstep

/-- Witness for C5 at concrete inputs: one non-expired stored credential
is pushed at startup and the invariant holds. -/
theorem heap_at_most_one_entry_per_account_witness :
    StInv (startup (-1000000000000)
      [StartItem.item authX (Except.ok ())] ⟨[], [(⟨[1]⟩, authX)]⟩).1 :=
  heap_at_most_one_entry_per_account.1 (-1000000000000)
    [StartItem.item authX (Except.ok ())] [(⟨[1]⟩, authX)]
    (by decide) (by decide) (by unfold KeysAreSubs; decide)

/-- C6: for a GET store request whose bundle is present but whose
character is absent from the cached summary, `refresh_store` first
triggers a summary refresh and re-searches the refreshed summary: if the
refresh fails, or the refreshed summary still lacks the character, the
handler returns 404 without ever invoking the upstream `get_store`
operation; if the character is found in the refreshed summary but the
upstream store fetch fails, it returns 500. -/
theorem store_miss_refreshes_summary_first
    (accounts : AccountId → Option AccountData) (id : AccountId)
    (cid : CharacterId) (w : StoreWorld) (ad : AccountData)
    (had : accounts id = some ad)
    (hmiss : findCharacter ad.summary cid = none) :
    (w.refreshSummary = Except.error () →
      refresh_store accounts id cid w = (Except.error 404, false)) ∧
    (∀ s2, w.refreshSummary = Except.ok s2 → findCharacter s2 cid = none →
      refresh_store accounts id cid w = (Except.error 404, false)) ∧
    (∀ s2 c a, w.refreshSummary = Except.ok s2 → findCharacter s2 cid = some c →
      w.authGet = Except.ok (some a) → w.getStore = Except.error () →
      refresh_store accounts id cid w = (Except.error 500, true)) := by
  refine ⟨fun h => ?_, fun s2 h hm => ?_, fun s2 c a h hm ha hg => ?_⟩
  · simp only [refresh_store, had, hmiss, h]
  · simp only [refresh_store, had, hmiss, h, hm]
  · simp only [refresh_store, had, hmiss, h, hm, fetchStorePath, ha, hg]

/-- Witness for C6 at concrete inputs: summary refresh succeeds and finds
the character, the upstream store fetch fails, result is 500. -/
theorem store_miss_refreshes_summary_first_witness :
    refresh_store (fun _ => some adW) ⟨[1]⟩ ⟨[2]⟩
      ⟨Except.ok sumW, Except.ok (some authX), Except.error ()⟩ =
      (Except.error 500, true) :=
  (store_miss_refreshes_summary_first (fun _ => some adW) ⟨[1]⟩ ⟨[2]⟩
    ⟨Except.ok sumW, Except.ok (some authX), Except.error ()⟩ adW rfl rfl).2.2
    sumW charW authX rfl rfl rfl rfl

theorem collectStores_map (chars : List Character)
    (f : Character → Except Unit Store) :
    collectStores chars (chars.map f) =
      chars.filterMap (fun c =>
        match f c with
        | Except.ok s => some (c.id, s)
        | Except.error _ => none) := by
  induction chars with
  | nil => rfl
  | cons c cs ih =>
    simp only [List.map_cons, collectStores, List.zip_cons_cons,
      List.filterMap_cons] at ih ⊢
    cases f c with
    | error u => exact ih
    | ok s => rw [ih]

theorem mem_collect_of_ok {chars : List Character}
    {f : Character → Except Unit Store} {c : Character} {s : Store}
    (hc : c ∈ chars) (hf : f c = Except.ok s) :
    (c.id, s) ∈ collectStores chars (chars.map f) := by
  rw [collectStores_map]
  exact List.mem_filterMap.mpr ⟨c, hc, by rw [hf]⟩

theorem not_mem_collect_of_error {chars : List Character}
    {f : Character → Except Unit Store} {c : Character}
    (hc : c ∈ chars) (hnd : (chars.map Character.id).Nodup)
    (hf : f c = Except.error ()) :
    lookupStore (collectStores chars (chars.map f)) c.id = none := by
  rw [collectStores_map]
  unfold lookupStore
  rw [List.find?_eq_none.mpr]
  · rfl
  · intro p hp
    rcases List.mem_filterMap.mp hp with ⟨c2, hc2, hg⟩
    cases hf2 : f c2 with
    | error u =>
      rw [hf2] at hg
      simp at hg
    | ok s2 =>
      rw [hf2] at hg
      simp only [Option.some.injEq] at hg
      intro hid
      have hpe : p.1 = c2.id := by rw [← hg]
      have hce : c2.id = c.id := by
        rw [← hpe]
        simpa using hid
      have : c2 = c := List.inj_on_of_nodup_map hnd hc2 hc hce
      rw [this, hf] at hf2
      simp at hf2

/-- C10: `AccountData::fetch` fails exactly when the upstream summary
fetch or the master-data fetch fails; per-character store fetch failures
do not fail the populate — a successful store fetch for a character in
the summary appears in the resulting map, and (with distinct character
ids) a failed one leaves that character absent from the map. -/
theorem fetch_error_iff_summary_or_masterdata (now : Int) (w : FetchWorld) :
    ((AccountData.fetch now w).isOk = true ↔
      w.getSummary.isOk = true ∧ w.getMasterData.isOk = true) ∧
    (∀ summary d, w.getSummary = Except.ok summary →
      AccountData.fetch now w = Except.ok d →
      (∀ c ∈ summary.characters, ∀ s,
        w.getStore CurrencyType.marks c = Except.ok s → (c.id, s) ∈ d.marks_store) ∧
      (∀ c ∈ summary.characters, (summary.characters.map Character.id).Nodup →
        w.getStore CurrencyType.marks c = Except.error () →
        lookupStore d.marks_store c.id = none) ∧
      (∀ c ∈ summary.characters, ∀ s,
        w.getStore CurrencyType.credits c = Except.ok s → (c.id, s) ∈ d.credits_store) ∧
      (∀ c ∈ summary.characters, (summary.characters.map Character.id).Nodup →
        w.getStore CurrencyType.credits c = Except.error () →
        lookupStore d.credits_store c.id = none)) := by
  constructor
  · cases hs : w.getSummary with
    | error e => simp [AccountData.fetch, hs, Except.isOk, Except.toBool]
    | ok summary =>
      cases hm : w.getMasterData with
      | error e => simp [AccountData.fetch, hs, hm, Except.isOk, Except.toBool]
      | ok md => simp [AccountData.fetch, hs, hm, Except.isOk, Except.toBool]
  · intro summary d hs hd
    cases hm : w.getMasterData with
    | error e =>
      rw [show AccountData.fetch now w = Except.error e by
        simp [AccountData.fetch, hs, hm]] at hd
      simp at hd
    | ok md =>
      have hde : d = ⟨now, summary,
          collectStores summary.characters
            (storeResults w CurrencyType.marks summary.characters),
          collectStores summary.characters
            (storeResults w CurrencyType.credits summary.characters), md⟩ := by
        rw [show AccountData.fetch now w = Except.ok ⟨now, summary,
            collectStores summary.characters
              (storeResults w CurrencyType.marks summary.characters),
            collectStores summary.characters
              (storeResults w CurrencyType.credits summary.characters), md⟩ by
          simp [AccountData.fetch, hs, hm]] at hd
        exact (Except.ok.inj hd).symm
      subst hde
      refine ⟨fun c hc s hf => ?_, fun c hc hnd hf => ?_,
        fun c hc s hf => ?_, fun c hc hnd hf => ?_⟩
      · exact mem_collect_of_ok hc hf
      · exact not_mem_collect_of_error hc hnd hf
      · exact mem_collect_of_ok hc hf
      · exact not_mem_collect_of_error hc hnd hf

/-- Witness for C10 at concrete inputs: the populate succeeds although
`charW2`'s store fetches fail; `charW`'s store is in the map and `charW2`
is absent. -/
theorem fetch_error_iff_summary_or_masterdata_witness :
    ((⟨[2]⟩ : CharacterId), (⟨50, 7⟩ : Store)) ∈ fetchedW.marks_store ∧
    lookupStore fetchedW.marks_store ⟨[3]⟩ = none := by
  have h := (fetch_error_iff_summary_or_masterdata 0 fetchW).2 sumW2 fetchedW rfl rfl
  exact ⟨h.1 charW (by decide) ⟨50, 7⟩ rfl, h.2.1 charW2 (by decide) (by decide) rfl⟩

/-- C9: the durable round trip is NOT the identity — for a credential
with `refresh_at = None`, `#[skip_serializing_none]` makes `insert` write
no bytes at all for the field, and the non-self-describing postcard
decode in `get` then misreads `refresh_token`'s length byte (here 2) as
the `Option` tag, which is invalid: `get` returns a decode error instead
of the stored credential. -/
theorem durable_roundtrip_fails_on_none_refresh_at :
    sledGet (sledInsert [] authN.sub authN) authN.sub = Except.error () ∧
    decAuth (encAuth authN) = none := by
  exact ⟨rfl, rfl⟩

end DtFetcher
